import Mathlib

/-!
Verification of the node-building utilities (`node_utils.py`) and the
retriever query engine (`retriever_query_engine.py`) of this repository.

Python `dict[str, str]` metadata mappings are modelled as insertion-ordered
association lists without duplicate keys (Python dicts preserve insertion
order; `dict.update` overwrites the value of an existing key in place and
appends new keys at the end, which `metaSet` / `metaUpdate` reproduce).

Mutable-dict aliasing matters for `get_nodes_from_document`: the Python line
`node_metadata = document.metadata` makes `node_metadata` an alias of the
document's dict, so each iteration's `node_metadata.update(...)` mutates the
document's metadata in place, accumulating every split's entries in the dict
the caller owns.  The node constructors (`TextNode` / `ImageNode`, from
`llama_index.schema`, not part of the two source files) are pydantic models
that validate and copy their dict fields at construction, and per the spec
nodes are immutable after creation; so the metadata stored in node `i` is a
snapshot of the document's dict as of iteration `i`, not a live view.  The
embedding threads the document's dict through the loop as explicit state and
stores in each node its own dict contents (`MetaRef.priv`): the snapshot
taken at construction when `include_metadata` is true, a fresh `{}`
otherwise.
-/

namespace LlamaIndex

/-- A Python `dict[str, str]`: insertion-ordered association list. -/
abbrev Meta := List (String × String)

/-- `d[k]` lookup: first (and, for duplicate-free dicts, only) binding wins. -/
def metaGet : Meta → String → Option String
  | [], _ => none
  | (k', v) :: rest, k => if k' = k then some v else metaGet rest k

/-- `d[k] = v`: overwrite the existing binding of `k` in place, else append. -/
def metaSet : Meta → String → String → Meta
  | [], k, v => [(k, v)]
  | (k', v') :: rest, k, v =>
    if k' = k then (k', v) :: rest else (k', v') :: metaSet rest k v

/-- Python `dst.update(src)`: apply each entry of `src` to `dst` in order. -/
def metaUpdate (dst src : Meta) : Meta :=
  src.foldl (fun acc kv => metaSet acc kv.1 kv.2) dst

/-- `some`-biased choice, used to phrase lookup lemmas. -/
def optOr (a b : Option String) : Option String :=
  match a with
  | some v => some v
  | none => b

/-- `TextSplit` (from `llama_index.langchain_helpers.text_splitter`, not part
of the two source files).  Modelled from the spec: an immutable-by-contract
record pairing a chunk of text with optional per-chunk metadata and an
optional count of characters overlapping the previous chunk. -/
structure TextSplit where
  text_chunk : String
  metadata : Option Meta := none
  num_char_overlap : Option Nat := none
deriving Repr, DecidableEq

/-- Fields shared by the document variants (`llama_index.schema`, not part of
the two source files).  Modelled from the spec: raw text, metadata mapping,
optional embedding, optional image payload, exclusion lists, and the
metadata-rendering separator/template. -/
structure DocRecord where
  doc_id : Nat
  text : String
  metadata : Meta := []
  embedding : Option (List Int) := none
  image : Option String := none
  excluded_embed_metadata_keys : List String := []
  excluded_llm_metadata_keys : List String := []
  metadata_seperator : String := "\n"
  text_template : String := ""
deriving Repr, DecidableEq

/-- The closed document-variant switch performed by `isinstance` checks in
`get_nodes_from_document`: an `ImageDocument`, a plain `Document`, or any
other `BaseNode` subtype (the `else: raise ValueError` branch). -/
inductive BaseNode
  | document (d : DocRecord)
  | imageDocument (d : DocRecord)
  | unknown (d : DocRecord)
deriving Repr, DecidableEq

/-- The record carried by whichever variant the node is. -/
def BaseNode.docRecord : BaseNode → DocRecord
  | .document d => d
  | .imageDocument d => d
  | .unknown d => d

/-- `document.get_content(metadata_mode=MetadataMode.NONE)` and the default
`document.get_content()`: the raw text with no metadata annotation.
Modelled from the spec: the document's content rendered with no metadata. -/
def BaseNode.get_content (n : BaseNode) : String :=
  n.docRecord.text

/-- `document.get_metadata_str()`.  Modelled from the spec: the document's
rendered metadata string (opaque to this core; only handed to the
overlap-aware splitter as auxiliary length-budget context). -/
def BaseNode.get_metadata_str (n : BaseNode) : String :=
  String.intercalate n.docRecord.metadata_seperator
    (n.docRecord.metadata.map fun kv => kv.1 ++ ": " ++ kv.2)

/-- Stand-in for Python's `type(document)` in the error message. -/
def BaseNode.typeName : BaseNode → String
  | .document _ => "Document"
  | .imageDocument _ => "ImageDocument"
  | .unknown _ => "Unknown"

/-- A chunk returned by a plain splitter's `split_text`: a bare string, a
pre-built `TextSplit`, or a nested document fragment (the three `isinstance`
cases of the normalization loop). -/
inductive Chunk
  | str (s : String)
  | split (ts : TextSplit)
  | docFragment (text : String) (metadata : Meta)
deriving Repr, DecidableEq

/-- The injected splitting capability: either a `TokenTextSplitter` exposing
`split_text_with_overlaps(text, metadata_str)`, or any other splitter
exposing plain `split_text(text)`. -/
inductive TextSplitter
  | token (split_text_with_overlaps : String → Option String → List TextSplit)
  | plain (split_text : String → List Chunk)

/-- The per-chunk normalization of the plain-split path: a bare string chunk
becomes `TextSplit(text_chunk)`, a `TextSplit` chunk is kept, and a document
fragment becomes `TextSplit(text_chunk=doc_chunk.get_text(), metadata=doc_chunk.metadata)`. -/
def normalizeChunk : Chunk → TextSplit
  | .str s => { text_chunk := s }
  | .split ts => ts
  | .docFragment t m => { text_chunk := t, metadata := some m }

/-- The merge step of the plain-split path: when `include_metadata` is true
and `document.metadata` is truthy (non-empty), replace a missing split dict
by `{}` and run `text_split.metadata.update(document.metadata)`. -/
def mergeDocMeta (include_metadata : Bool) (docMeta : Meta) (ts : TextSplit) : TextSplit :=
  if include_metadata && !docMeta.isEmpty then
    { ts with metadata := some (metaUpdate (ts.metadata.getD []) docMeta) }
  else
    ts

/-- `get_text_splits_from_document`: break the document into chunks with
additional info.  The `TokenTextSplitter` branch calls
`split_text_with_overlaps` on the content with the rendered metadata string
(only when `include_metadata`); any other splitter's chunks are normalized
into `TextSplit`s and the document metadata is merged into each. -/
def get_text_splits_from_document (document : BaseNode) (text_splitter : TextSplitter)
    (include_metadata : Bool) : List TextSplit :=
  match text_splitter with
  | .token f =>
    f document.get_content
      (if include_metadata then some document.get_metadata_str else none)
  | .plain f =>
    (f document.get_content).map fun c =>
      mergeDocMeta include_metadata document.docRecord.metadata (normalizeChunk c)

/-- `node.as_related_node_info()` (`llama_index.schema`, not part of the two
source files).  Modelled from the spec: a lightweight, non-owning reference
to another node, by identifier.  Node identifiers (Python-side fresh UUIDs)
are modelled deterministically: the originating document carries its own id
and the `i`-th node built from a document gets id `i`. -/
structure RelatedNodeInfo where
  node_id : Nat
deriving Repr, DecidableEq

/-- `document.as_related_node_info()`. -/
def BaseNode.as_related_node_info (n : BaseNode) : RelatedNodeInfo :=
  { node_id := n.docRecord.doc_id }

/-- The contents of a built node's `metadata` dict.  Modelled from the
spec: nodes are immutable after creation (and the schema's constructors,
absent from the two source files, copy dict fields at construction), so the
node holds its own dict: the snapshot of the just-updated document dict when
`include_metadata=True`, a fresh `{}` when `include_metadata=False`. -/
inductive MetaRef
  | priv (m : Meta)
deriving Repr, DecidableEq

/-- The metadata a caller observes in a node after the call.  The first
argument (the final contents of the document's dict) is irrelevant to the
node's own snapshot; it is kept so observations are stated against the full
call outcome. -/
def resolveMeta (_docMeta : Meta) : MetaRef → Meta
  | .priv m => m

/-- A node built by `get_nodes_from_document`: a `TextNode`, or an
`ImageNode` when `is_image` (which additionally carries the image payload
and leaves the exclusion lists / separator / template at their class
defaults, as the `ImageNode(...)` constructor call does not pass them). -/
structure BuiltNode where
  node_id : Nat
  is_image : Bool
  text : String
  embedding : Option (List Int)
  image : Option String
  start_char_idx : Option Int
  end_char_idx : Option Int
  metadataRef : MetaRef
  excluded_embed_metadata_keys : List String
  excluded_llm_metadata_keys : List String
  metadata_seperator : String
  text_template : String
  relationships_source : Option RelatedNodeInfo
  relationships_previous : Option RelatedNodeInfo
  relationships_next : Option RelatedNodeInfo
deriving Repr, DecidableEq

/-- Placeholder node for out-of-bounds `getD` reads (never produced). -/
def dummyNode : BuiltNode :=
  { node_id := 0, is_image := false, text := "", embedding := none, image := none
    start_char_idx := none, end_char_idx := none, metadataRef := .priv []
    excluded_embed_metadata_keys := [], excluded_llm_metadata_keys := []
    metadata_seperator := "", text_template := ""
    relationships_source := none, relationships_previous := none
    relationships_next := none }

instance : Inhabited BuiltNode := ⟨dummyNode⟩

/-- The loop body of `get_nodes_from_document`, one iteration per
`TextSplit`.  State: `i` the running index (node id), `index_counter` the
character cursor, `docMeta` the current contents of the document's metadata
dict (mutated in place by `node_metadata.update(...)` when
`include_metadata` holds, since `node_metadata` aliases it).  The node
constructor copies the dict it is given, so the node records the snapshot
`docMeta'` taken right after this iteration's update.  Offsets are computed
before the variant dispatch, exactly as in the source; the
`else: raise ValueError` branch aborts the whole call. -/
def buildNodesLoop (document : BaseNode) (include_metadata : Bool) :
    List TextSplit → Nat → Nat → Meta → Except String (List BuiltNode × Meta)
  | [], _, _, docMeta => .ok ([], docMeta)
  | ts :: rest, i, index_counter, docMeta =>
    let text_chunk := ts.text_chunk
    let start_char_idx : Option Int :=
      ts.num_char_overlap.map fun k => (index_counter : Int) - (k : Int)
    let end_char_idx : Option Int :=
      ts.num_char_overlap.map fun k =>
        (index_counter : Int) - (k : Int) + (text_chunk.length : Int)
    let index_counter' := index_counter + text_chunk.length + 1
    let docMeta' :=
      if include_metadata then
        match ts.metadata with
        | some m => metaUpdate docMeta m
        | none => docMeta
      else docMeta
    let metaRef : MetaRef := if include_metadata then .priv docMeta' else .priv []
    match document with
    | .imageDocument d =>
      let image_node : BuiltNode :=
        { node_id := i, is_image := true, text := text_chunk
          embedding := d.embedding, image := d.image
          start_char_idx := start_char_idx, end_char_idx := end_char_idx
          metadataRef := metaRef
          excluded_embed_metadata_keys := [], excluded_llm_metadata_keys := []
          metadata_seperator := "", text_template := ""
          relationships_source := some (BaseNode.imageDocument d).as_related_node_info
          relationships_previous := none, relationships_next := none }
      match buildNodesLoop document include_metadata rest (i + 1) index_counter' docMeta' with
      | .ok (nodes, m) => .ok (image_node :: nodes, m)
      | .error e => .error e
    | .document d =>
      let node : BuiltNode :=
        { node_id := i, is_image := false, text := text_chunk
          embedding := d.embedding, image := none
          start_char_idx := start_char_idx, end_char_idx := end_char_idx
          metadataRef := metaRef
          excluded_embed_metadata_keys := d.excluded_embed_metadata_keys
          excluded_llm_metadata_keys := d.excluded_llm_metadata_keys
          metadata_seperator := d.metadata_seperator
          text_template := d.text_template
          relationships_source := some (BaseNode.document d).as_related_node_info
          relationships_previous := none, relationships_next := none }
      match buildNodesLoop document include_metadata rest (i + 1) index_counter' docMeta' with
      | .ok (nodes, m) => .ok (node :: nodes, m)
      | .error e => .error e
    | .unknown _ =>
      .error ("Unknown document type: " ++ document.typeName)

/-- `node.as_related_node_info()` for a built node: reference by id. -/
def BuiltNode.as_related_node_info (n : BuiltNode) : RelatedNodeInfo :=
  { node_id := n.node_id }

/-- The `include_prev_next_rel` post-pass: for each node with index `> 0`
assign a PREVIOUS relationship to its predecessor, for each with index
`< len - 1` a NEXT relationship to its successor.  The Python loop patches
the node list in place while iterating; since `as_related_node_info` only
reads the node id, which the patch does not touch, patching out-of-place
over the original list is equivalent. -/
def addPrevNextRel (nodes : List BuiltNode) : List BuiltNode :=
  (List.range nodes.length).map fun i =>
    let node := nodes.getD i dummyNode
    let prevRef := some (nodes.getD (i - 1) dummyNode).as_related_node_info
    let nextRef := some (nodes.getD (i + 1) dummyNode).as_related_node_info
    let node :=
      if 0 < i then { node with relationships_previous := prevRef } else node
    if i < nodes.length - 1 then { node with relationships_next := nextRef }
    else node

/-- The observable outcome of `get_nodes_from_document`: the returned node
list together with the final contents of the document's metadata dict
(which the caller still owns and can observe after the call). -/
structure NodesResult where
  nodes : List BuiltNode
  document_metadata : Meta
deriving Repr, DecidableEq

/-- `get_nodes_from_document`: obtain the `TextSplit`s from the Chunk
Extractor, run the node-building loop, then (when `include_prev_next_rel`)
the sibling-link post-pass. -/
def get_nodes_from_document (document : BaseNode) (text_splitter : TextSplitter)
    (include_metadata : Bool) (include_prev_next_rel : Bool) :
    Except String NodesResult :=
  let text_splits := get_text_splits_from_document document text_splitter include_metadata
  match buildNodesLoop document include_metadata text_splits 0 0 document.docRecord.metadata with
  | .error e => .error e
  | .ok (nodes, docMeta) =>
    .ok { nodes := if include_prev_next_rel then addPrevNextRel nodes else nodes
          document_metadata := docMeta }

/-! ## Retriever query engine (`retriever_query_engine.py`) -/

/-- The query context threaded through retrieval and postprocessing. -/
structure QueryBundle where
  query_str : String
deriving Repr, DecidableEq

/-- A retrieved node with a relevance score (opaque to this core). -/
structure NodeWithScore where
  node_id : Nat
  score : Int
deriving Repr, DecidableEq

/-- The synthesized answer (opaque to this core). -/
structure Response where
  response : String
deriving Repr, DecidableEq

/-- `CBEventType`: the two event kinds this module emits. -/
inductive CBEventType
  | query
  | retrieve
deriving Repr, DecidableEq

/-- The event payloads this module attaches (`EventPayload.QUERY_STR`,
`EventPayload.NODES`, `EventPayload.RESPONSE`). -/
inductive Payload
  | queryStr (s : String)
  | nodes (ns : List NodeWithScore)
  | response (r : Response)
deriving Repr, DecidableEq

/-- An emitted event: a start event returning a correlation token
(`event_id`), or an end event closing with one. -/
inductive CBEvent
  | start (t : CBEventType) (payload : Option Payload) (event_id : Nat)
  | finish (t : CBEventType) (payload : Option Payload) (event_id : Nat)
deriving Repr, DecidableEq

/-- The injected event sink (`CallbackManager`), modelled as explicit state:
a fresh-token counter and the trace of events emitted so far. -/
structure CallbackManager where
  next_id : Nat
  events : List CBEvent
deriving Repr, DecidableEq

/-- `on_event_start(event_type, payload=...)`: emit a start event and return
its fresh correlation token. -/
def on_event_start (cb : CallbackManager) (t : CBEventType) (payload : Option Payload) :
    Nat × CallbackManager :=
  (cb.next_id,
   { next_id := cb.next_id + 1
     events := cb.events ++ [CBEvent.start t payload cb.next_id] })

/-- `on_event_end(event_type, payload=..., event_id=...)`. -/
def on_event_end (cb : CallbackManager) (t : CBEventType) (payload : Option Payload)
    (event_id : Nat) : CallbackManager :=
  { cb with events := cb.events ++ [CBEvent.finish t payload event_id] }

/-- A registered node postprocessor's `postprocess_nodes(nodes, query_bundle=...)`. -/
abbrev Postprocessor := List NodeWithScore → QueryBundle → List NodeWithScore

/-- `RetrieverQueryEngine` with its injected capabilities.  The blocking and
suspendable operations of the retriever and synthesizer are separate
injected functions (`retrieve`/`aretrieve`, `synthesize`/`asynthesize`). -/
structure RetrieverQueryEngine where
  retriever_retrieve : QueryBundle → List NodeWithScore
  retriever_aretrieve : QueryBundle → List NodeWithScore
  synth_synthesize : QueryBundle → List NodeWithScore → Response
  synth_asynthesize : QueryBundle → List NodeWithScore → Response
  node_postprocessors : List Postprocessor

namespace RetrieverQueryEngine

/-- `_apply_node_postprocessors`: rebind `nodes` to each postprocessor's
output in registration order. -/
def apply_node_postprocessors (e : RetrieverQueryEngine) (nodes : List NodeWithScore)
    (query_bundle : QueryBundle) : List NodeWithScore :=
  e.node_postprocessors.foldl
    (fun nodes node_postprocessor => node_postprocessor nodes query_bundle) nodes

/-- `retrieve`: the retriever's nodes threaded through the postprocessor
chain.  Touches no callback manager: emits no events. -/
def retrieve (e : RetrieverQueryEngine) (query_bundle : QueryBundle) : List NodeWithScore :=
  e.apply_node_postprocessors (e.retriever_retrieve query_bundle) query_bundle

/-- `aretrieve`: the suspendable variant, using the retriever's suspendable
operation; also emits no events. -/
def aretrieve (e : RetrieverQueryEngine) (query_bundle : QueryBundle) : List NodeWithScore :=
  e.apply_node_postprocessors (e.retriever_aretrieve query_bundle) query_bundle

/-- `_query`: the blocking full query path, with its four events. -/
def query_ (e : RetrieverQueryEngine) (query_bundle : QueryBundle) (cb : CallbackManager) :
    Response × CallbackManager :=
  let (query_id, cb) := on_event_start cb .query (some (.queryStr query_bundle.query_str))
  let (retrieve_id, cb) := on_event_start cb .retrieve none
  let nodes := e.retrieve query_bundle
  let cb := on_event_end cb .retrieve (some (.nodes nodes)) retrieve_id
  let response := e.synth_synthesize query_bundle nodes
  let cb := on_event_end cb .query (some (.response response)) query_id
  (response, cb)

/-- `_aquery`: the suspendable full query path, mirroring `_query` with the
suspendable retriever and synthesizer operations. -/
def aquery (e : RetrieverQueryEngine) (query_bundle : QueryBundle) (cb : CallbackManager) :
    Response × CallbackManager :=
  let (query_id, cb) := on_event_start cb .query (some (.queryStr query_bundle.query_str))
  let (retrieve_id, cb) := on_event_start cb .retrieve none
  let nodes := e.aretrieve query_bundle
  let cb := on_event_end cb .retrieve (some (.nodes nodes)) retrieve_id
  let response := e.synth_asynthesize query_bundle nodes
  let cb := on_event_end cb .query (some (.response response)) query_id
  (response, cb)

end RetrieverQueryEngine

/-! ## Reference definitions used to state and prove the claims -/

/-- A plain or image document, selected by a flag: the two variants the
Node Builder accepts. -/
def mkDoc (img : Bool) (d : DocRecord) : BaseNode :=
  if img then .imageDocument d else .document d

/-- The node built by one iteration of the loop for split `ts`, at node
index `i` with character cursor `c`, where `m'` is the contents of the
document's dict right after this iteration's update (reference form of the
loop body). -/
def nodeOf (img : Bool) (d : DocRecord) (include_metadata : Bool) (i c : Nat)
    (ts : TextSplit) (m' : Meta) : BuiltNode :=
  let start_char_idx : Option Int :=
    ts.num_char_overlap.map fun k => (c : Int) - (k : Int)
  let end_char_idx : Option Int :=
    ts.num_char_overlap.map fun k => (c : Int) - (k : Int) + (ts.text_chunk.length : Int)
  let metaRef : MetaRef := if include_metadata then .priv m' else .priv []
  if img then
    { node_id := i, is_image := true, text := ts.text_chunk
      embedding := d.embedding, image := d.image
      start_char_idx := start_char_idx, end_char_idx := end_char_idx
      metadataRef := metaRef
      excluded_embed_metadata_keys := [], excluded_llm_metadata_keys := []
      metadata_seperator := "", text_template := ""
      relationships_source := some (BaseNode.imageDocument d).as_related_node_info
      relationships_previous := none, relationships_next := none }
  else
    { node_id := i, is_image := false, text := ts.text_chunk
      embedding := d.embedding, image := none
      start_char_idx := start_char_idx, end_char_idx := end_char_idx
      metadataRef := metaRef
      excluded_embed_metadata_keys := d.excluded_embed_metadata_keys
      excluded_llm_metadata_keys := d.excluded_llm_metadata_keys
      metadata_seperator := d.metadata_seperator
      text_template := d.text_template
      relationships_source := some (BaseNode.document d).as_related_node_info
      relationships_previous := none, relationships_next := none }

/-- Reference form of the node list the loop builds for a plain or image
document (for which no iteration can error); `m` is the contents of the
document's dict at the start of the iteration. -/
def splitsToNodes (img : Bool) (d : DocRecord) (include_metadata : Bool) :
    List TextSplit → Nat → Nat → Meta → List BuiltNode
  | [], _, _, _ => []
  | ts :: rest, i, c, m =>
    let m' :=
      if include_metadata then
        match ts.metadata with
        | some mm => metaUpdate m mm
        | none => m
      else m
    nodeOf img d include_metadata i c ts m' ::
      splitsToNodes img d include_metadata rest (i + 1) (c + ts.text_chunk.length + 1) m'

/-- Reference form of the final contents of the document's metadata dict:
when `include_metadata`, each split's metadata (when present) is
`update`d into it, in order. -/
def metaFold (include_metadata : Bool) : Meta → List TextSplit → Meta
  | m, [] => m
  | m, ts :: rest =>
    metaFold include_metadata
      (if include_metadata then
        match ts.metadata with
        | some mm => metaUpdate m mm
        | none => m
      else m) rest

/-- The value of the character cursor `index_counter` before split `j` is
processed: `Σ_{l<j} (len(chunk_l) + 1)`. -/
def cursorAt : List TextSplit → Nat → Nat
  | _, 0 => 0
  | [], _ + 1 => 0
  | ts :: rest, j + 1 => ts.text_chunk.length + 1 + cursorAt rest j

/-- The keys of a metadata dict, in order. -/
def metaKeys (m : Meta) : List String :=
  m.map Prod.fst

/-- The text carried by a chunk, whatever its shape. -/
def chunkText : Chunk → String
  | .str s => s
  | .split ts => ts.text_chunk
  | .docFragment t _ => t

/-- Whether the document is neither the plain nor the image variant. -/
def BaseNode.isUnknownVariant : BaseNode → Bool
  | .unknown _ => true
  | .document _ => false
  | .imageDocument _ => false

/-! Concrete inputs used by counterexamples and witnesses. -/

/-- A plain document carrying metadata `{"a": "1"}`. -/
def docA : DocRecord :=
  { doc_id := 7, text := "hello", metadata := [("a", "1")] }

/-- A splitter returning one `TextSplit` chunk carrying its own metadata
`{"b": "2"}`. -/
def splitterA : TextSplitter :=
  .plain fun _ => [.split { text_chunk := "hello", metadata := some [("b", "2")] }]

/-- A plain document carrying metadata `{"k": "d"}`. -/
def docK : DocRecord :=
  { doc_id := 1, text := "t", metadata := [("k", "d")] }

/-- A splitter returning one `TextSplit` chunk whose metadata collides with
the document's on key `"k"`. -/
def splitterK : TextSplitter :=
  .plain fun _ => [.split { text_chunk := "t", metadata := some [("k", "s")] }]

/-- A document of an unrecognized variant. -/
def docU : DocRecord :=
  { doc_id := 2, text := "x", metadata := [("m", "1")] }

/-- A splitter producing no chunks at all. -/
def emptySplitter : TextSplitter :=
  .plain fun _ => []

/-- An overlap-aware splitter producing two overlapping chunks. -/
def splitterTok : TextSplitter :=
  .token fun _ _ =>
    [{ text_chunk := "abc", num_char_overlap := some 0 },
     { text_chunk := "cde", num_char_overlap := some 1 }]

/-- A plain document with no metadata. -/
def docB : DocRecord :=
  { doc_id := 9, text := "abcdef" }

/-- A concrete retriever capability. -/
def retr0 : QueryBundle → List NodeWithScore :=
  fun _ => [{ node_id := 0, score := 1 }, { node_id := 3, score := 2 }]

/-- A concrete synthesizer capability. -/
def synth0 : QueryBundle → List NodeWithScore → Response :=
  fun q _ => { response := q.query_str }

/-- A concrete engine whose blocking and suspendable capabilities coincide. -/
def engine0 : RetrieverQueryEngine :=
  { retriever_retrieve := retr0, retriever_aretrieve := retr0
    synth_synthesize := synth0, synth_asynthesize := synth0
    node_postprocessors := [fun ns _ => ns.drop 1] }

/-- A fresh callback manager. -/
def cb0 : CallbackManager :=
  { next_id := 0, events := [] }

/-- A concrete query bundle. -/
def qb0 : QueryBundle :=
  { query_str := "q" }

/-- The node list a caller gets back (empty when the call raised). -/
def resultNodes : Except String NodesResult → List BuiltNode
  | .ok r => r.nodes
  | .error _ => []

/-- The final contents of the document's metadata dict when the call
returned, `none` when it raised. -/
def resultDocMeta : Except String NodesResult → Option Meta
  | .ok r => some r.document_metadata
  | .error _ => none

/-- The splits `splitterTok` produces (for any document). -/
def splitsTokL : List TextSplit :=
  [{ text_chunk := "abc", num_char_overlap := some 0 },
   { text_chunk := "cde", num_char_overlap := some 1 }]

/-! ## Dictionary lemmas -/

theorem metaGet_metaSet (m : Meta) (k v k' : String) :
    metaGet (metaSet m k v) k' = if k' = k then some v else metaGet m k' := by
  induction m with
  | nil =>
    by_cases h : k' = k
    · simp [metaSet, metaGet, h]
    · simp [metaSet, metaGet, h, Ne.symm h]
  | cons hd tl ih =>
    obtain ⟨k1, v1⟩ := hd
    by_cases h1 : k1 = k
    · subst h1
      by_cases h2 : k' = k1
      · simp [metaSet, metaGet, h2]
      · simp [metaSet, metaGet, h2, Ne.symm h2]
    · by_cases h2 : k1 = k'
      · subst h2
        simp [metaSet, metaGet, h1, Ne.symm h1]
      · simp [metaSet, metaGet, h1, h2, ih]

theorem metaGet_append (m1 m2 : Meta) (k : String) :
    metaGet (m1 ++ m2) k = optOr (metaGet m1 k) (metaGet m2 k) := by
  induction m1 with
  | nil => simp [metaGet, optOr]
  | cons hd tl ih =>
    obtain ⟨k1, v1⟩ := hd
    by_cases h : k1 = k
    · simp [metaGet, h, optOr]
    · simp [metaGet, h, ih]

theorem metaUpdate_cons (dst : Meta) (kv : String × String) (src : Meta) :
    metaUpdate dst (kv :: src) = metaUpdate (metaSet dst kv.1 kv.2) src := rfl

theorem metaGet_metaUpdate (dst src : Meta) (k : String) :
    metaGet (metaUpdate dst src) k = optOr (metaGet src.reverse k) (metaGet dst k) := by
  induction src generalizing dst with
  | nil => simp [metaUpdate, metaGet, optOr]
  | cons kv rest ih =>
    rw [metaUpdate_cons, ih, List.reverse_cons, metaGet_append, metaGet_metaSet]
    cases hr : metaGet rest.reverse k with
    | some v => simp [optOr]
    | none =>
      by_cases h : kv.1 = k
      · simp [optOr, metaGet, h]
      · have h' : ¬ k = kv.1 := fun hh => h hh.symm
        simp [optOr, metaGet, h, h']

theorem metaGet_eq_none_iff (m : Meta) (k : String) :
    metaGet m k = none ↔ k ∉ metaKeys m := by
  induction m with
  | nil => simp [metaGet, metaKeys]
  | cons hd tl ih =>
    obtain ⟨k1, v1⟩ := hd
    by_cases h : k1 = k
    · subst h
      simp [metaGet, metaKeys]
    · simp [metaGet, metaKeys, h, ih, Ne.symm h]

theorem metaGet_reverse_of_nodup (m : Meta) (h : (metaKeys m).Nodup) (k : String) :
    metaGet m.reverse k = metaGet m k := by
  induction m with
  | nil => rfl
  | cons hd tl ih =>
    obtain ⟨k1, v1⟩ := hd
    simp only [metaKeys, List.map_cons, List.nodup_cons] at h
    rw [List.reverse_cons, metaGet_append, ih h.2]
    by_cases hk : k1 = k
    · subst hk
      have : metaGet tl k1 = none := (metaGet_eq_none_iff tl k1).mpr h.1
      simp [this, optOr, metaGet]
    · simp [metaGet, hk, optOr]
      cases metaGet tl k <;> simp [optOr]

theorem metaKeys_metaSet (m : Meta) (k v : String) :
    metaKeys (metaSet m k v) = if k ∈ metaKeys m then metaKeys m else metaKeys m ++ [k] := by
  induction m with
  | nil => simp [metaSet, metaKeys]
  | cons hd tl ih =>
    obtain ⟨k1, v1⟩ := hd
    by_cases h : k1 = k
    · subst h
      simp [metaSet, metaKeys]
    · simp only [metaKeys, List.map_cons] at ih ⊢
      simp only [metaSet, if_neg h, List.map_cons]
      rw [ih]
      by_cases hm : k ∈ List.map Prod.fst tl
      · simp [metaKeys, hm, List.mem_cons, Ne.symm h]
      · simp [metaKeys, hm, List.mem_cons, Ne.symm h]

theorem nodup_metaKeys_metaSet (m : Meta) (k v : String) (h : (metaKeys m).Nodup) :
    (metaKeys (metaSet m k v)).Nodup := by
  rw [metaKeys_metaSet]
  by_cases hm : k ∈ metaKeys m
  · simp [hm, h]
  · simp [hm, List.nodup_append, h]

theorem nodup_metaKeys_metaUpdate (dst src : Meta) (h : (metaKeys dst).Nodup) :
    (metaKeys (metaUpdate dst src)).Nodup := by
  induction src generalizing dst with
  | nil => exact h
  | cons kv rest ih =>
    rw [metaUpdate_cons]
    exact ih _ (nodup_metaKeys_metaSet _ _ _ h)

/-! ## Node-builder decomposition lemmas -/

theorem docRecord_mkDoc (img : Bool) (d : DocRecord) : (mkDoc img d).docRecord = d := by
  cases img <;> rfl

theorem buildNodesLoop_mkDoc (img : Bool) (d : DocRecord) (im : Bool)
    (splits : List TextSplit) : ∀ (i c : Nat) (m : Meta),
    buildNodesLoop (mkDoc img d) im splits i c m =
      .ok (splitsToNodes img d im splits i c m, metaFold im m splits) := by
  induction splits with
  | nil => intro i c m; cases img <;> rfl
  | cons ts rest ih =>
    intro i c m
    cases img <;>
      simp_all [buildNodesLoop, mkDoc, splitsToNodes, nodeOf, metaFold]

theorem splitsToNodes_length (img : Bool) (d : DocRecord) (im : Bool)
    (splits : List TextSplit) : ∀ (i c : Nat) (m : Meta),
    (splitsToNodes img d im splits i c m).length = splits.length := by
  induction splits with
  | nil => intro i c m; rfl
  | cons ts rest ih => intro i c m; simp [splitsToNodes, ih]

theorem splitsToNodes_getElem (img : Bool) (d : DocRecord) (im : Bool)
    (splits : List TextSplit) : ∀ (i c j : Nat) (m : Meta),
    (splitsToNodes img d im splits i c m)[j]? =
      (splits[j]?).map fun ts =>
        nodeOf img d im (i + j) (c + cursorAt splits j) ts
          (metaFold im m (splits.take (j + 1))) := by
  induction splits with
  | nil => intro i c j m; simp [splitsToNodes]
  | cons ts rest ih =>
    intro i c j m
    cases j with
    | zero =>
      simp only [splitsToNodes, List.getElem?_cons_zero, Option.map_some', cursorAt,
        List.take_succ_cons, List.take_zero, metaFold, Nat.add_zero]
    | succ j =>
      have h := ih (i + 1) (c + ts.text_chunk.length + 1) j
        (if im then
          match ts.metadata with
          | some mm => metaUpdate m mm
          | none => m
        else m)
      simp only [splitsToNodes, List.getElem?_cons_succ, cursorAt, List.take_succ_cons,
        metaFold]
      rw [h]
      cases rest[j]? with
      | none => rfl
      | some ts' =>
        have e1 : i + 1 + j = i + (j + 1) := by omega
        have e2 : c + ts.text_chunk.length + 1 + cursorAt rest j
            = c + (ts.text_chunk.length + 1 + cursorAt rest j) := by omega
        simp only [Option.map_some']
        rw [e1, e2]

theorem cursorAt_succ (splits : List TextSplit) : ∀ (j : Nat) (ts : TextSplit),
    splits[j]? = some ts →
    cursorAt splits (j + 1) = cursorAt splits j + ts.text_chunk.length + 1 := by
  induction splits with
  | nil => intro j ts h; simp at h
  | cons hd tl ih =>
    intro j ts h
    cases j with
    | zero =>
      simp only [List.getElem?_cons_zero, Option.some.injEq] at h
      subst h
      simp only [cursorAt]
      omega
    | succ j =>
      simp only [List.getElem?_cons_succ] at h
      simp only [cursorAt]
      rw [ih j ts h]
      omega

theorem get_nodes_from_document_mkDoc (img : Bool) (d : DocRecord)
    (splitter : TextSplitter) (im ipn : Bool) :
    get_nodes_from_document (mkDoc img d) splitter im ipn =
      .ok { nodes :=
              if ipn then
                addPrevNextRel (splitsToNodes img d im
                  (get_text_splits_from_document (mkDoc img d) splitter im) 0 0 d.metadata)
              else
                splitsToNodes img d im
                  (get_text_splits_from_document (mkDoc img d) splitter im) 0 0 d.metadata
            document_metadata :=
              metaFold im d.metadata
                (get_text_splits_from_document (mkDoc img d) splitter im) } := by
  simp only [get_nodes_from_document, docRecord_mkDoc, buildNodesLoop_mkDoc]

theorem addPrevNextRel_length (ns : List BuiltNode) :
    (addPrevNextRel ns).length = ns.length := by
  simp [addPrevNextRel]

theorem addPrevNextRel_fields (ns : List BuiltNode) (j : Nat) (base : BuiltNode)
    (h : ns[j]? = some base) :
    ∃ nd, (addPrevNextRel ns)[j]? = some nd ∧
      nd.node_id = base.node_id ∧
      nd.is_image = base.is_image ∧
      nd.text = base.text ∧
      nd.start_char_idx = base.start_char_idx ∧
      nd.end_char_idx = base.end_char_idx ∧
      nd.metadataRef = base.metadataRef ∧
      nd.relationships_source = base.relationships_source ∧
      nd.relationships_previous =
        (if 0 < j then some (ns.getD (j - 1) dummyNode).as_related_node_info
         else base.relationships_previous) ∧
      nd.relationships_next =
        (if j < ns.length - 1 then some (ns.getD (j + 1) dummyNode).as_related_node_info
         else base.relationships_next) := by
  have hj : j < ns.length := (List.getElem?_eq_some.mp h).1
  have hbase : ns.getD j dummyNode = base := by
    rw [List.getD_eq_getElem?_getD, h]
    rfl
  unfold addPrevNextRel
  rw [List.getElem?_map, List.getElem?_range hj, Option.map_some', hbase]
  by_cases h0 : 0 < j <;> by_cases hlast : j < ns.length - 1 <;>
    simp [h0, hlast]

theorem nodeOf_proj (img : Bool) (d : DocRecord) (im : Bool) (i c : Nat) (ts : TextSplit)
    (m' : Meta) :
    (nodeOf img d im i c ts m').node_id = i ∧
    (nodeOf img d im i c ts m').text = ts.text_chunk ∧
    (nodeOf img d im i c ts m').start_char_idx =
      ts.num_char_overlap.map (fun k => (c : Int) - (k : Int)) ∧
    (nodeOf img d im i c ts m').end_char_idx =
      ts.num_char_overlap.map (fun k => (c : Int) - (k : Int) + (ts.text_chunk.length : Int)) ∧
    (nodeOf img d im i c ts m').metadataRef =
      (if im then MetaRef.priv m' else MetaRef.priv []) ∧
    (nodeOf img d im i c ts m').relationships_source = some { node_id := d.doc_id } ∧
    (nodeOf img d im i c ts m').relationships_previous = none ∧
    (nodeOf img d im i c ts m').relationships_next = none := by
  cases img <;>
    simp [nodeOf, BaseNode.as_related_node_info, BaseNode.docRecord]

theorem metaFold_false (splits : List TextSplit) : ∀ (m : Meta),
    metaFold false m splits = m := by
  induction splits with
  | nil => intro m; rfl
  | cons ts rest ih => intro m; simp [metaFold, ih]

theorem metaGet_metaFold_true (splits : List TextSplit) (k v : String)
    (hsp : ∀ ts ∈ splits, ∀ mm, ts.metadata = some mm →
      (metaKeys mm).Nodup ∧ metaGet mm k = some v) :
    ∀ (m : Meta), (metaKeys m).Nodup → metaGet m k = some v →
    metaGet (metaFold true m splits) k = some v := by
  induction splits with
  | nil => intro m _ hm; exact hm
  | cons ts rest ih =>
    intro m hnd hm
    simp only [metaFold, if_pos rfl]
    cases hts : ts.metadata with
    | none =>
      exact ih (fun t ht => hsp t (List.mem_cons_of_mem ts ht)) m hnd hm
    | some mm =>
      have hmm := hsp ts (List.mem_cons_self ts rest) mm hts
      have hget : metaGet (metaUpdate m mm) k = some v := by
        rw [metaGet_metaUpdate, metaGet_reverse_of_nodup mm hmm.1, hmm.2]
        rfl
      exact ih (fun t ht => hsp t (List.mem_cons_of_mem ts ht)) (metaUpdate m mm)
        (nodup_metaKeys_metaUpdate m mm hnd) hget

theorem extractor_plain_getElem (doc : BaseNode) (f : String → List Chunk)
    (im : Bool) (j : Nat) :
    (get_text_splits_from_document doc (.plain f) im)[j]? =
      ((f doc.get_content)[j]?).map
        (fun c => mergeDocMeta im doc.docRecord.metadata (normalizeChunk c)) := by
  simp [get_text_splits_from_document, List.getElem?_map]

theorem mergeDocMeta_of_nonempty (docMeta : Meta) (ts : TextSplit) (hd : docMeta ≠ []) :
    mergeDocMeta true docMeta ts =
      { ts with metadata := some (metaUpdate (ts.metadata.getD []) docMeta) } := by
  have : docMeta.isEmpty = false := List.isEmpty_eq_false.mpr hd
  simp [mergeDocMeta, this]

theorem mergeDocMeta_text (im : Bool) (m : Meta) (ts : TextSplit) :
    (mergeDocMeta im m ts).text_chunk = ts.text_chunk := by
  unfold mergeDocMeta
  split <;> rfl

theorem normalizeChunk_text (c : Chunk) :
    (normalizeChunk c).text_chunk = chunkText c := by
  cases c <;> rfl

theorem mkDoc_false (d : DocRecord) : mkDoc false d = .document d := rfl

theorem mkDoc_true (d : DocRecord) : mkDoc true d = .imageDocument d := rfl

theorem buildNodesLoop_unknown_nil (d : DocRecord) (im : Bool) (i c : Nat) (m : Meta) :
    buildNodesLoop (.unknown d) im [] i c m = .ok ([], m) := rfl

theorem buildNodesLoop_unknown_cons (d : DocRecord) (im : Bool) (ts : TextSplit)
    (rest : List TextSplit) (i c : Nat) (m : Meta) :
    buildNodesLoop (.unknown d) im (ts :: rest) i c m =
      .error ("Unknown document type: " ++ (BaseNode.unknown d).typeName) := rfl

theorem result_nodes_getElem (img : Bool) (d : DocRecord) (im ipn : Bool)
    (splits : List TextSplit) (m : Meta) (j : Nat) (ts : TextSplit)
    (hts : splits[j]? = some ts) :
    ∃ nd, (if ipn then addPrevNextRel (splitsToNodes img d im splits 0 0 m)
           else splitsToNodes img d im splits 0 0 m)[j]? = some nd ∧
      nd.node_id = j ∧
      nd.text = ts.text_chunk ∧
      nd.start_char_idx =
        ts.num_char_overlap.map (fun k => (cursorAt splits j : Int) - (k : Int)) ∧
      nd.end_char_idx =
        ts.num_char_overlap.map
          (fun k => (cursorAt splits j : Int) - (k : Int) + (ts.text_chunk.length : Int)) ∧
      nd.metadataRef =
        (if im then MetaRef.priv (metaFold im m (splits.take (j + 1)))
         else MetaRef.priv []) ∧
      nd.relationships_source = some { node_id := d.doc_id } := by
  have hbase : (splitsToNodes img d im splits 0 0 m)[j]? =
      some (nodeOf img d im (0 + j) (0 + cursorAt splits j) ts
        (metaFold im m (splits.take (j + 1)))) := by
    rw [splitsToNodes_getElem, hts]
    rfl
  have hproj := nodeOf_proj img d im (0 + j) (0 + cursorAt splits j) ts
    (metaFold im m (splits.take (j + 1)))
  cases ipn with
  | false =>
    refine ⟨nodeOf img d im (0 + j) (0 + cursorAt splits j) ts
      (metaFold im m (splits.take (j + 1))), ?_, ?_, ?_, ?_, ?_, ?_, ?_⟩
    · simpa using hbase
    · simpa using hproj.1
    · exact hproj.2.1
    · simpa using hproj.2.2.1
    · simpa using hproj.2.2.2.1
    · exact hproj.2.2.2.2.1
    · exact hproj.2.2.2.2.2.1
  | true =>
    obtain ⟨nd, hnd, hid, himg, htext, hs, he, hm, hsrc, _, _⟩ :=
      addPrevNextRel_fields _ j _ hbase
    refine ⟨nd, by simpa using hnd, ?_, ?_, ?_, ?_, ?_, ?_⟩
    · rw [hid]; simpa using hproj.1
    · rw [htext, hproj.2.1]
    · rw [hs]; simpa using hproj.2.2.1
    · rw [he]; simpa using hproj.2.2.2.1
    · rw [hm]; exact hproj.2.2.2.2.1
    · rw [hsrc]; exact hproj.2.2.2.2.2.1

theorem resultNodes_mkDoc (img : Bool) (d : DocRecord) (splitter : TextSplitter)
    (im ipn : Bool) (splits : List TextSplit)
    (hsp : get_text_splits_from_document (mkDoc img d) splitter im = splits) :
    resultNodes (get_nodes_from_document (mkDoc img d) splitter im ipn) =
      (if ipn then addPrevNextRel (splitsToNodes img d im splits 0 0 d.metadata)
       else splitsToNodes img d im splits 0 0 d.metadata) := by
  rw [get_nodes_from_document_mkDoc, hsp]
  rfl

theorem resultDocMeta_mkDoc (img : Bool) (d : DocRecord) (splitter : TextSplitter)
    (im ipn : Bool) (splits : List TextSplit)
    (hsp : get_text_splits_from_document (mkDoc img d) splitter im = splits) :
    resultDocMeta (get_nodes_from_document (mkDoc img d) splitter im ipn) =
      some (metaFold im d.metadata splits) := by
  rw [get_nodes_from_document_mkDoc, hsp]
  rfl

theorem addPrevNextRel_getElem_inv (ns : List BuiltNode) (j : Nat) (nd : BuiltNode)
    (h : (addPrevNextRel ns)[j]? = some nd) :
    ∃ base, ns[j]? = some base ∧
      nd.node_id = base.node_id ∧
      nd.is_image = base.is_image ∧
      nd.text = base.text ∧
      nd.start_char_idx = base.start_char_idx ∧
      nd.end_char_idx = base.end_char_idx ∧
      nd.metadataRef = base.metadataRef ∧
      nd.relationships_source = base.relationships_source ∧
      nd.relationships_previous =
        (if 0 < j then some (ns.getD (j - 1) dummyNode).as_related_node_info
         else base.relationships_previous) ∧
      nd.relationships_next =
        (if j < ns.length - 1 then some (ns.getD (j + 1) dummyNode).as_related_node_info
         else base.relationships_next) := by
  have hj : j < ns.length := by
    have h1 := (List.getElem?_eq_some.mp h).1
    rwa [addPrevNextRel_length] at h1
  have hbase : ns[j]? = some ns[j] := List.getElem?_eq_getElem hj
  obtain ⟨nd', hnd', props⟩ := addPrevNextRel_fields ns j _ hbase
  rw [hnd'] at h
  obtain rfl : nd' = nd := Option.some.inj h
  exact ⟨ns[j], hbase, props⟩

theorem result_nodes_mem (img : Bool) (d : DocRecord) (im ipn : Bool)
    (splits : List TextSplit) (m : Meta) (nd : BuiltNode)
    (h : nd ∈ (if ipn then addPrevNextRel (splitsToNodes img d im splits 0 0 m)
               else splitsToNodes img d im splits 0 0 m)) :
    (im = false → nd.metadataRef = MetaRef.priv []) ∧
    nd.relationships_source = some { node_id := d.doc_id } ∧
    (ipn = false → nd.relationships_previous = none ∧ nd.relationships_next = none) := by
  obtain ⟨j, hj⟩ := List.mem_iff_getElem?.mp h
  cases ipn with
  | false =>
    simp only [Bool.false_eq_true, if_false] at hj
    have hlen := (List.getElem?_eq_some.mp hj).1
    rw [splitsToNodes_length] at hlen
    have hts : splits[j]? = some splits[j] := List.getElem?_eq_getElem hlen
    rw [splitsToNodes_getElem, hts, Option.map_some'] at hj
    obtain rfl := Option.some.inj hj
    have hproj := nodeOf_proj img d im (0 + j) (0 + cursorAt splits j) splits[j]
      (metaFold im m (splits.take (j + 1)))
    refine ⟨fun him => ?_, hproj.2.2.2.2.2.1, fun _ => ?_⟩
    · subst him
      simpa using hproj.2.2.2.2.1
    · exact ⟨hproj.2.2.2.2.2.2.1, hproj.2.2.2.2.2.2.2⟩
  | true =>
    simp only [if_true] at hj
    obtain ⟨base, hbase, _, _, _, _, _, hm, hsrc, _, _⟩ :=
      addPrevNextRel_getElem_inv _ j nd hj
    have hlen := (List.getElem?_eq_some.mp hbase).1
    rw [splitsToNodes_length] at hlen
    have hts : splits[j]? = some splits[j] := List.getElem?_eq_getElem hlen
    rw [splitsToNodes_getElem, hts, Option.map_some'] at hbase
    obtain hb := Option.some.inj hbase
    have hproj := nodeOf_proj img d im (0 + j) (0 + cursorAt splits j) splits[j]
      (metaFold im m (splits.take (j + 1)))
    refine ⟨fun him => ?_, ?_, fun hfalse => by cases hfalse⟩
    · subst him
      rw [hm, ← hb]
      simpa using hproj.2.2.2.2.1
    · rw [hsrc, ← hb]; exact hproj.2.2.2.2.2.1

/-! ## Claim theorems -/

/-- C1: the claim says `get_nodes_from_document` leaves the document's
metadata mapping unchanged.  The code contradicts it: `node_metadata =
document.metadata` aliases the document's dict and the subsequent
`node_metadata.update(text_split.metadata)` mutates it in place.  At the
concrete failing input below (document metadata `{"a": "1"}`, one split
carrying its own metadata `{"b": "2"}`, `include_metadata=True`), the
document's metadata after the call is `{"a": "1", "b": "2"}`, no longer
`{"a": "1"}`. -/
theorem C1_document_metadata_mutated :
    docA.metadata = [("a", "1")] ∧
    resultDocMeta (get_nodes_from_document (.document docA) splitterA true false) =
      some [("a", "1"), ("b", "2")] ∧
    ([("a", "1"), ("b", "2")] : Meta) ≠ [("a", "1")] := by
  refine ⟨rfl, rfl, by decide⟩

/-- C8 counterexample: the claim states the error is raised if and only if
the document is neither the plain nor the image variant.  For the unknown
document `docU` and a splitter producing no chunks, the `raise` inside the
per-split loop is never reached, so the call returns an empty node list
instead of raising. -/
theorem C8_counterexample_empty_splits :
    (BaseNode.unknown docU).isUnknownVariant = true ∧
    get_nodes_from_document (.unknown docU) emptySplitter true false =
      .ok { nodes := [], document_metadata := [("m", "1")] } := by
  exact ⟨rfl, rfl⟩

/-- C8 (amended): `get_nodes_from_document` raises `ValueError` if and only
if the document is neither a plain nor an image document AND the splitter
produces at least one chunk; the error is raised at the first chunk, no node
list is returned, and for plain or image documents it is never raised. -/
theorem C8_error_characterization (doc : BaseNode) (splitter : TextSplitter)
    (im ipn : Bool) :
    ((∃ e, get_nodes_from_document doc splitter im ipn = .error e) ↔
      (doc.isUnknownVariant = true ∧
        get_text_splits_from_document doc splitter im ≠ [])) ∧
    (∀ d ts rest, doc = .unknown d →
      get_text_splits_from_document doc splitter im = ts :: rest →
      get_nodes_from_document doc splitter im ipn =
        .error ("Unknown document type: " ++ doc.typeName)) := by
  constructor
  · cases doc with
    | document d =>
      constructor
      · rintro ⟨e, he⟩
        rw [← mkDoc_false, get_nodes_from_document_mkDoc] at he
        cases he
      · rintro ⟨hu, -⟩
        cases hu
    | imageDocument d =>
      constructor
      · rintro ⟨e, he⟩
        rw [← mkDoc_true, get_nodes_from_document_mkDoc] at he
        cases he
      · rintro ⟨hu, -⟩
        cases hu
    | unknown d =>
      cases hsp : get_text_splits_from_document (.unknown d) splitter im with
      | nil =>
        constructor
        · rintro ⟨e, he⟩
          simp only [get_nodes_from_document, hsp, buildNodesLoop_unknown_nil] at he
          exact Except.noConfusion he
        · rintro ⟨-, hne⟩
          exact absurd rfl hne
      | cons ts rest =>
        constructor
        · intro _
          exact ⟨rfl, by simp⟩
        · intro _
          refine ⟨"Unknown document type: " ++ (BaseNode.unknown d).typeName, ?_⟩
          simp only [get_nodes_from_document, hsp, buildNodesLoop_unknown_cons]
  · intro d ts rest hdoc hsp
    subst hdoc
    simp only [get_nodes_from_document, hsp, buildNodesLoop_unknown_cons]

/-- C3: for every split sequence, with the character cursor starting at 0
and advancing by `len(chunk) + 1` per split: a split carrying overlap `k`
yields `start_char_idx = cursor - k` and `end_char_idx = start_char_idx +
len(chunk)` (so their difference is `len(chunk)`), and a split carrying no
overlap count yields null offsets. -/
theorem C3_offsets (img : Bool) (d : DocRecord) (splitter : TextSplitter)
    (im ipn : Bool) (splits : List TextSplit)
    (hsp : get_text_splits_from_document (mkDoc img d) splitter im = splits)
    (j : Nat) (ts : TextSplit) (hts : splits[j]? = some ts) :
    ∃ nd, (resultNodes (get_nodes_from_document (mkDoc img d) splitter im ipn))[j]? =
        some nd ∧
      (∀ k, ts.num_char_overlap = some k →
        nd.start_char_idx = some ((cursorAt splits j : Int) - (k : Int)) ∧
        nd.end_char_idx =
          some ((cursorAt splits j : Int) - (k : Int) + (ts.text_chunk.length : Int)) ∧
        ∃ s e, nd.start_char_idx = some s ∧ nd.end_char_idx = some e ∧
          e - s = (ts.text_chunk.length : Int)) ∧
      (ts.num_char_overlap = none →
        nd.start_char_idx = none ∧ nd.end_char_idx = none) ∧
      cursorAt splits (j + 1) = cursorAt splits j + ts.text_chunk.length + 1 := by
  rw [resultNodes_mkDoc img d splitter im ipn splits hsp]
  obtain ⟨nd, hnd, _, _, hs, he, _⟩ :=
    result_nodes_getElem img d im ipn splits d.metadata j ts hts
  refine ⟨nd, hnd, ?_, ?_, cursorAt_succ splits j ts hts⟩
  · intro k hk
    rw [hs, he, hk]
    exact ⟨rfl, rfl, (cursorAt splits j : Int) - (k : Int),
      (cursorAt splits j : Int) - (k : Int) + (ts.text_chunk.length : Int),
      rfl, rfl, by ring⟩
  · intro hk
    rw [hs, he, hk]
    exact ⟨rfl, rfl⟩

/-- C4: every produced node has exactly one SOURCE relationship referencing
the originating document; with `include_prev_next_rel=true`, node 0 has no
PREVIOUS, the last node has no NEXT, and adjacent nodes reference each other
through PREVIOUS/NEXT; with `include_prev_next_rel=false`, no PREVIOUS/NEXT
relationships exist at all. -/
theorem C4_relationships (img : Bool) (d : DocRecord) (splitter : TextSplitter)
    (im ipn : Bool) (splits : List TextSplit)
    (hsp : get_text_splits_from_document (mkDoc img d) splitter im = splits) :
    (∀ nd ∈ resultNodes (get_nodes_from_document (mkDoc img d) splitter im ipn),
      nd.relationships_source = some (mkDoc img d).as_related_node_info) ∧
    (ipn = false →
      ∀ nd ∈ resultNodes (get_nodes_from_document (mkDoc img d) splitter im ipn),
        nd.relationships_previous = none ∧ nd.relationships_next = none) ∧
    (ipn = true →
      (∀ nd, (resultNodes (get_nodes_from_document (mkDoc img d) splitter im ipn))[0]? =
          some nd → nd.relationships_previous = none) ∧
      (∀ nd, (resultNodes (get_nodes_from_document (mkDoc img d) splitter im ipn))[
          (resultNodes (get_nodes_from_document (mkDoc img d) splitter im ipn)).length - 1]? =
          some nd → nd.relationships_next = none) ∧
      (∀ j a b,
        (resultNodes (get_nodes_from_document (mkDoc img d) splitter im ipn))[j]? = some a →
        (resultNodes (get_nodes_from_document (mkDoc img d) splitter im ipn))[j + 1]? = some b →
        a.relationships_next = some b.as_related_node_info ∧
        b.relationships_previous = some a.as_related_node_info)) := by
  rw [resultNodes_mkDoc img d splitter im ipn splits hsp]
  have hsrc_as : (mkDoc img d).as_related_node_info = { node_id := d.doc_id } := by
    cases img <;> rfl
  refine ⟨?_, ?_, ?_⟩
  · intro nd hnd
    rw [hsrc_as]
    exact (result_nodes_mem img d im ipn splits d.metadata nd hnd).2.1
  · intro hipn nd hnd
    exact (result_nodes_mem img d im ipn splits d.metadata nd hnd).2.2 hipn
  · intro hipn
    subst hipn
    simp only [if_true]
    refine ⟨?_, ?_, ?_⟩
    · intro nd hnd
      obtain ⟨base, hbase, _, _, _, _, _, _, _, hprev, _⟩ :=
        addPrevNextRel_getElem_inv _ 0 nd hnd
      rw [hprev]
      simp only [Nat.lt_irrefl, if_false]
      have hlen := (List.getElem?_eq_some.mp hbase).1
      rw [splitsToNodes_length] at hlen
      have hts : splits[0]? = some splits[0] := List.getElem?_eq_getElem hlen
      rw [splitsToNodes_getElem, hts, Option.map_some'] at hbase
      obtain hb := Option.some.inj hbase
      rw [← hb]
      exact (nodeOf_proj img d im (0 + 0) (0 + cursorAt splits 0) splits[0]
        (metaFold im d.metadata (splits.take (0 + 1)))).2.2.2.2.2.2.1
    · intro nd hnd
      rw [addPrevNextRel_length, splitsToNodes_length] at hnd
      obtain ⟨base, hbase, _, _, _, _, _, _, _, _, hnext⟩ :=
        addPrevNextRel_getElem_inv _ _ nd hnd
      rw [hnext]
      have hlen := (List.getElem?_eq_some.mp hbase).1
      rw [splitsToNodes_length] at hlen
      have hno : ¬ (splits.length - 1 <
          (splitsToNodes img d im splits 0 0 d.metadata).length - 1) := by
        rw [splitsToNodes_length]
        omega
      rw [if_neg hno]
      have hts : splits[splits.length - 1]? = some splits[splits.length - 1] :=
        List.getElem?_eq_getElem hlen
      rw [splitsToNodes_getElem, hts, Option.map_some'] at hbase
      obtain hb := Option.some.inj hbase
      rw [← hb]
      exact (nodeOf_proj img d im _ _ _ _).2.2.2.2.2.2.2
    · intro j a b ha hb
      obtain ⟨basea, hbasea, hida, _, _, _, _, _, _, _, hnexta⟩ :=
        addPrevNextRel_getElem_inv _ j a ha
      obtain ⟨baseb, hbaseb, hidb, _, _, _, _, _, _, hprevb, _⟩ :=
        addPrevNextRel_getElem_inv _ (j + 1) b hb
      have hlenb := (List.getElem?_eq_some.mp hbaseb).1
      have hja : j < (splitsToNodes img d im splits 0 0 d.metadata).length - 1 := by omega
      have hgeta : (splitsToNodes img d im splits 0 0 d.metadata).getD j dummyNode = basea := by
        rw [List.getD_eq_getElem?_getD, hbasea]
        rfl
      have hgetb : (splitsToNodes img d im splits 0 0 d.metadata).getD (j + 1) dummyNode = baseb := by
        rw [List.getD_eq_getElem?_getD, hbaseb]
        rfl
      constructor
      · rw [hnexta, if_pos hja, hgetb]
        simp only [BuiltNode.as_related_node_info, hidb]
      · rw [hprevb, if_pos (Nat.succ_pos j)]
        simp only [Nat.add_sub_cancel, hgeta]
        simp only [BuiltNode.as_related_node_info, hida]

/-- C5: for a plain or image document and any splitter, `build_nodes`
returns exactly one node per extracted chunk, in the same order, node `j`
carrying the text of chunk `j`; for a plain splitter the extracted splits
are in bijection with the splitter's chunks and preserve their text. -/
theorem C5_node_count_and_order (img : Bool) (d : DocRecord) (splitter : TextSplitter)
    (im ipn : Bool) (splits : List TextSplit)
    (hsp : get_text_splits_from_document (mkDoc img d) splitter im = splits) :
    (resultNodes (get_nodes_from_document (mkDoc img d) splitter im ipn)).length =
      splits.length ∧
    (∀ (j : Nat) (ts : TextSplit), splits[j]? = some ts →
      ∃ nd, (resultNodes (get_nodes_from_document (mkDoc img d) splitter im ipn))[j]? =
          some nd ∧ nd.text = ts.text_chunk) ∧
    (∀ f, splitter = .plain f →
      splits.length = (f (mkDoc img d).get_content).length ∧
      ∀ (j : Nat) (c : Chunk), (f (mkDoc img d).get_content)[j]? = some c →
        ∃ ts, splits[j]? = some ts ∧ ts.text_chunk = chunkText c) := by
  rw [resultNodes_mkDoc img d splitter im ipn splits hsp]
  refine ⟨?_, ?_, ?_⟩
  · cases ipn with
    | false => simp [splitsToNodes_length]
    | true => simp [addPrevNextRel_length, splitsToNodes_length]
  · intro j ts hts
    obtain ⟨nd, hnd, _, htext, _⟩ :=
      result_nodes_getElem img d im ipn splits d.metadata j ts hts
    exact ⟨nd, hnd, htext⟩
  · intro f hf
    subst hf
    constructor
    · rw [← hsp]
      simp [get_text_splits_from_document]
    · intro j c hc
      rw [← hsp, extractor_plain_getElem, hc, Option.map_some']
      exact ⟨_, rfl, by rw [mergeDocMeta_text, normalizeChunk_text]⟩

/-- C10: with `include_metadata=False`, every produced node's metadata
mapping is a private empty dict: whatever the final state of the document's
dict, the node's observed metadata is empty. -/
theorem C10_no_metadata_when_disabled (img : Bool) (d : DocRecord)
    (splitter : TextSplitter) (ipn : Bool) (splits : List TextSplit)
    (hsp : get_text_splits_from_document (mkDoc img d) splitter false = splits)
    (nd : BuiltNode)
    (hnd : nd ∈ resultNodes (get_nodes_from_document (mkDoc img d) splitter false ipn)) :
    nd.metadataRef = MetaRef.priv [] ∧
    ∀ m, resolveMeta m nd.metadataRef = [] := by
  rw [resultNodes_mkDoc img d splitter false ipn splits hsp] at hnd
  have h := (result_nodes_mem img d false ipn splits d.metadata nd hnd).1 rfl
  exact ⟨h, fun m => by rw [h]; rfl⟩

/-- C2 counterexample: the claim predicts that the Node Builder produces a
node whose metadata is the document's overwritten by the split's (split
wins), i.e. `{"k": "s"}` for document metadata `{"k": "d"}` and split
metadata `{"k": "s"}`.  The code produces `{"k": "d"}`: the Chunk Extractor
already overwrote the split's `"k"` with the document's value before the
Node Builder merge ran. -/
theorem C2_counterexample_collision :
    docK.metadata = [("k", "d")] ∧
    Except.map
        (fun r => r.nodes.map fun nd => resolveMeta r.document_metadata nd.metadataRef)
        (get_nodes_from_document (.document docK) splitterK true false) =
      .ok [[("k", "d")]] ∧
    metaUpdate docK.metadata [("k", "s")] = [("k", "s")] ∧
    ([[("k", "d")]] : List Meta) ≠ [metaUpdate docK.metadata [("k", "s")]] := by
  refine ⟨rfl, rfl, rfl, by decide⟩

/-- C2 (amended): the Extractor merge is document-wins as claimed: each
produced split's metadata is the split's own updated by the document's, so
the document's value is present at every key it defines and split-only keys
survive.  The Node Builder's merge step does apply the split's metadata over
the document's dict (the split's entry wins at that step), but the splits it
consumes already carry the document's values on colliding keys, and
`node_metadata` aliases the document's dict, which accumulates each
iteration's update before the node constructor snapshots it; so the metadata
stored in node `i` equals the document's metadata updated by the metadata of
splits `0..i`, and on every colliding key it holds the document's value, not
the split's original one. -/
theorem C2_merge_directions (d : DocRecord) (f : String → List Chunk) (ipn : Bool)
    (splits : List TextSplit)
    (hsp : get_text_splits_from_document (.document d) (.plain f) true = splits)
    (hd : d.metadata ≠ []) (hndk : (metaKeys d.metadata).Nodup) :
    (∀ (j : Nat) (c : Chunk), (f (BaseNode.document d).get_content)[j]? = some c →
      ∃ ts, splits[j]? = some ts ∧
        ts.metadata = some (metaUpdate ((normalizeChunk c).metadata.getD []) d.metadata) ∧
        (∀ k v, metaGet d.metadata k = some v →
          metaGet (metaUpdate ((normalizeChunk c).metadata.getD []) d.metadata) k = some v) ∧
        (∀ k, metaGet d.metadata k = none →
          metaGet (metaUpdate ((normalizeChunk c).metadata.getD []) d.metadata) k =
            metaGet ((normalizeChunk c).metadata.getD []) k)) ∧
    (resultDocMeta (get_nodes_from_document (.document d) (.plain f) true ipn) =
        some (metaFold true d.metadata splits) ∧
      ∀ (j : Nat) (ts : TextSplit), splits[j]? = some ts →
        ∃ nd, (resultNodes (get_nodes_from_document (.document d) (.plain f) true ipn))[j]? =
            some nd ∧
          nd.metadataRef = MetaRef.priv (metaFold true d.metadata (splits.take (j + 1)))) ∧
    ((∀ (j : Nat) (c : Chunk), (f (BaseNode.document d).get_content)[j]? = some c →
        (metaKeys ((normalizeChunk c).metadata.getD [])).Nodup) →
      ∀ (j : Nat) (ts : TextSplit), splits[j]? = some ts →
      ∀ k v, metaGet d.metadata k = some v →
        metaGet (metaFold true d.metadata (splits.take (j + 1))) k = some v) := by
  have hmergeGet : ∀ (own : Meta) (k v : String), metaGet d.metadata k = some v →
      metaGet (metaUpdate own d.metadata) k = some v := by
    intro own k v hkv
    rw [metaGet_metaUpdate, metaGet_reverse_of_nodup d.metadata hndk, hkv]
    rfl
  have hsplitmeta : ∀ (k v : String), metaGet d.metadata k = some v →
      (∀ (j : Nat) (c : Chunk), (f (BaseNode.document d).get_content)[j]? = some c →
        (metaKeys ((normalizeChunk c).metadata.getD [])).Nodup) →
      ∀ ts ∈ splits, ∀ mm, ts.metadata = some mm →
        (metaKeys mm).Nodup ∧ metaGet mm k = some v := by
    intro k v hkv hchunks ts hts mm hmm
    obtain ⟨j, hj⟩ := List.mem_iff_getElem?.mp hts
    rw [← hsp, extractor_plain_getElem] at hj
    obtain ⟨c, hc, hgc⟩ := Option.map_eq_some'.mp hj
    simp only [BaseNode.docRecord] at hgc
    rw [mergeDocMeta_of_nonempty _ _ hd] at hgc
    rw [← hgc] at hmm
    simp only [Option.some.injEq] at hmm
    subst hmm
    constructor
    · exact nodup_metaKeys_metaUpdate _ _ (hchunks j c hc)
    · exact hmergeGet _ k v hkv
  refine ⟨?_, ⟨?_, ?_⟩, ?_⟩
  · intro j c hc
    rw [← hsp, extractor_plain_getElem, hc, Option.map_some']
    simp only [BaseNode.docRecord]
    rw [mergeDocMeta_of_nonempty _ _ hd]
    refine ⟨_, rfl, rfl, hmergeGet _, ?_⟩
    intro k hk
    rw [metaGet_metaUpdate, metaGet_reverse_of_nodup d.metadata hndk, hk]
    rfl
  · rw [← mkDoc_false] at hsp ⊢
    exact resultDocMeta_mkDoc false d (.plain f) true ipn splits hsp
  · rw [← mkDoc_false] at hsp ⊢
    intro j ts hts
    rw [resultNodes_mkDoc false d (.plain f) true ipn splits hsp]
    obtain ⟨nd, hnd, _, _, _, _, hm, _⟩ :=
      result_nodes_getElem false d true ipn splits d.metadata j ts hts
    refine ⟨nd, hnd, ?_⟩
    simpa using hm
  · intro hchunks j ts hts k v hkv
    refine metaGet_metaFold_true (splits.take (j + 1)) k v ?_ d.metadata hndk hkv
    intro ts' hts' mm hmm
    exact hsplitmeta k v hkv hchunks ts' (List.take_subset _ _ hts') mm hmm

/-- C6: the blocking full query path emits exactly four events in order — a
QUERY start carrying the raw query string, a RETRIEVE start, a RETRIEVE end
whose payload is the postprocessed node sequence closing the RETRIEVE
correlation token, and a QUERY end whose payload is the response closing the
QUERY correlation token — while the standalone `retrieve` operation (whose
definition involves no callback manager, hence emits no events) returns that
same postprocessed node sequence. -/
theorem C6_query_events (e : RetrieverQueryEngine) (q : QueryBundle)
    (cb : CallbackManager) :
    (e.query_ q cb).2.events = cb.events ++
      [CBEvent.start .query (some (.queryStr q.query_str)) cb.next_id,
       CBEvent.start .retrieve none (cb.next_id + 1),
       CBEvent.finish .retrieve (some (.nodes (e.retrieve q))) (cb.next_id + 1),
       CBEvent.finish .query (some (.response ((e.query_ q cb).1))) cb.next_id] ∧
    (e.query_ q cb).1 = e.synth_synthesize q (e.retrieve q) ∧
    e.retrieve q = e.apply_node_postprocessors (e.retriever_retrieve q) q := by
  refine ⟨?_, rfl, rfl⟩
  simp [RetrieverQueryEngine.query_, on_event_start, on_event_end]

/-- C7: assuming the injected retriever's and synthesizer's blocking and
suspendable operations return the same values, the blocking path
(`_query`/`retrieve`) and the suspendable path (`_aquery`/`aretrieve`)
produce identical responses, identical event traces and identical node
sequences. -/
theorem C7_blocking_suspendable_agree (e : RetrieverQueryEngine)
    (h1 : e.retriever_aretrieve = e.retriever_retrieve)
    (h2 : e.synth_asynthesize = e.synth_synthesize)
    (q : QueryBundle) (cb : CallbackManager) :
    e.aquery q cb = e.query_ q cb ∧ e.aretrieve q = e.retrieve q := by
  have hr : e.aretrieve q = e.retrieve q := by
    simp [RetrieverQueryEngine.aretrieve, RetrieverQueryEngine.retrieve, h1]
  refine ⟨?_, hr⟩
  simp [RetrieverQueryEngine.aquery, RetrieverQueryEngine.query_, hr, h2]

/-- C9: the postprocessor chain is a left fold: the empty chain is the
identity, a chain `[P1, P2]` applies `P2` to `P1`'s output, and a non-empty
chain applies its head and folds the tail over the result. -/
theorem C9_postprocessor_fold (rr ra : QueryBundle → List NodeWithScore)
    (ss sa : QueryBundle → List NodeWithScore → Response)
    (p1 p2 p : Postprocessor) (ps : List Postprocessor)
    (nodes : List NodeWithScore) (q : QueryBundle) :
    (RetrieverQueryEngine.mk rr ra ss sa [p1, p2]).apply_node_postprocessors nodes q =
      p2 (p1 nodes q) q ∧
    (RetrieverQueryEngine.mk rr ra ss sa []).apply_node_postprocessors nodes q = nodes ∧
    (RetrieverQueryEngine.mk rr ra ss sa (p :: ps)).apply_node_postprocessors nodes q =
      (RetrieverQueryEngine.mk rr ra ss sa ps).apply_node_postprocessors (p nodes q) q := by
  exact ⟨rfl, rfl, rfl⟩

/-! ## Witnesses -/

/-- Witness for C3: with chunks `"abc"` (overlap 0) and `"cde"` (overlap 1),
node 1 gets `start_char_idx = 4 - 1 = 3` and `end_char_idx = 3 + 3 = 6`. -/
theorem C3_offsets_witness :
    ((resultNodes (get_nodes_from_document (mkDoc false docB) splitterTok true false))[1]?).map
        BuiltNode.start_char_idx = some (some 3) ∧
    ((resultNodes (get_nodes_from_document (mkDoc false docB) splitterTok true false))[1]?).map
        BuiltNode.end_char_idx = some (some 6) := by
  obtain ⟨nd, hnd, hov, _, _⟩ := C3_offsets false docB splitterTok true false splitsTokL rfl 1
      { text_chunk := "cde", num_char_overlap := some 1 } rfl
  obtain ⟨hs, he, _⟩ := hov 1 rfl
  rw [hnd, Option.map_some', Option.map_some', hs, he]
  exact ⟨rfl, rfl⟩

/-- Witness for C4: with two chunks and sibling links on, node 0 has no
PREVIOUS, node 1 has no NEXT, node 0's NEXT references node 1, and node 0's
SOURCE references the document. -/
theorem C4_relationships_witness :
    ((resultNodes (get_nodes_from_document (mkDoc false docB) splitterTok true true)).getD 0
        dummyNode).relationships_previous = none ∧
    ((resultNodes (get_nodes_from_document (mkDoc false docB) splitterTok true true)).getD 1
        dummyNode).relationships_next = none ∧
    ((resultNodes (get_nodes_from_document (mkDoc false docB) splitterTok true true)).getD 0
        dummyNode).relationships_next =
      some (((resultNodes (get_nodes_from_document (mkDoc false docB) splitterTok true true)).getD 1
        dummyNode).as_related_node_info) ∧
    ((resultNodes (get_nodes_from_document (mkDoc false docB) splitterTok true true)).getD 0
        dummyNode).relationships_source = some (mkDoc false docB).as_related_node_info := by
  have h := C4_relationships false docB splitterTok true true splitsTokL rfl
  have h3 := h.2.2 rfl
  have h0 : (resultNodes (get_nodes_from_document (mkDoc false docB) splitterTok true true))[0]? =
      some ((resultNodes (get_nodes_from_document (mkDoc false docB) splitterTok true true)).getD 0
        dummyNode) := rfl
  have h1 : (resultNodes (get_nodes_from_document (mkDoc false docB) splitterTok true true))[1]? =
      some ((resultNodes (get_nodes_from_document (mkDoc false docB) splitterTok true true)).getD 1
        dummyNode) := rfl
  have hlast : (resultNodes (get_nodes_from_document (mkDoc false docB) splitterTok true true))[
      (resultNodes (get_nodes_from_document (mkDoc false docB) splitterTok true true)).length - 1]? =
      some ((resultNodes (get_nodes_from_document (mkDoc false docB) splitterTok true true)).getD 1
        dummyNode) := rfl
  refine ⟨h3.1 _ h0, h3.2.1 _ hlast, (h3.2.2 0 _ _ h0 h1).1, h.1 _ ?_⟩
  decide

/-- Witness for C5: two chunks yield two nodes, node 0 carrying `"abc"`. -/
theorem C5_node_count_witness :
    (resultNodes (get_nodes_from_document (mkDoc false docB) splitterTok true false)).length = 2 ∧
    ((resultNodes (get_nodes_from_document (mkDoc false docB) splitterTok true false)).getD 0
        dummyNode).text = "abc" := by
  have h := C5_node_count_and_order false docB splitterTok true false splitsTokL rfl
  refine ⟨h.1.trans rfl, ?_⟩
  obtain ⟨nd, hnd, htext⟩ := h.2.1 0 { text_chunk := "abc", num_char_overlap := some 0 } rfl
  have hg : (resultNodes (get_nodes_from_document (mkDoc false docB) splitterTok true false)).getD 0
      dummyNode = nd := by
    rw [List.getD_eq_getElem?_getD, hnd]
    rfl
  rw [hg, htext]

/-- Witness for C10: with `include_metadata=False`, the node built from a
document carrying metadata and a split carrying metadata still holds a
private empty dict. -/
theorem C10_no_metadata_witness :
    ((resultNodes (get_nodes_from_document (mkDoc false docA) splitterA false false)).getD 0
        dummyNode).metadataRef = MetaRef.priv [] := by
  have h := C10_no_metadata_when_disabled false docA splitterA false
      [{ text_chunk := "hello", metadata := some [("b", "2")], num_char_overlap := none }] rfl
      ((resultNodes (get_nodes_from_document (mkDoc false docA) splitterA false false)).getD 0
        dummyNode)
      (by decide)
  exact h.1

/-- Witness for C7: a concrete engine whose blocking and suspendable
capabilities coincide yields identical outcomes on both paths. -/
theorem C7_agreement_witness :
    RetrieverQueryEngine.aquery engine0 qb0 cb0 = RetrieverQueryEngine.query_ engine0 qb0 cb0 ∧
    RetrieverQueryEngine.aretrieve engine0 qb0 = RetrieverQueryEngine.retrieve engine0 qb0 :=
  C7_blocking_suspendable_agree engine0 rfl rfl qb0 cb0

/-- Witness for C8: an unknown document together with a splitter producing
one chunk makes the call raise the unknown-document error. -/
theorem C8_error_witness :
    get_nodes_from_document (.unknown docU) (.plain fun _ => [Chunk.str "x"]) true false =
      .error ("Unknown document type: " ++ (BaseNode.unknown docU).typeName) := by
  exact (C8_error_characterization (.unknown docU) (.plain fun _ => [Chunk.str "x"]) true false).2
    docU { text_chunk := "x", metadata := some [("m", "1")], num_char_overlap := none } [] rfl rfl

/-- Witness for C2: with document metadata `{"k": "d"}` and one split whose
own metadata is `{"k": "s"}`, the document's dict after the call is
`{"k": "d"}` and its value at `"k"` is the document's `"d"`. -/
theorem C2_merge_witness :
    resultDocMeta (get_nodes_from_document (.document docK)
        (.plain fun _ => [Chunk.split { text_chunk := "t", metadata := some [("k", "s")] }])
        true false) = some [("k", "d")] ∧
    ((resultNodes (get_nodes_from_document (.document docK)
        (.plain fun _ => [Chunk.split { text_chunk := "t", metadata := some [("k", "s")] }])
        true false)).getD 0 dummyNode).metadataRef = MetaRef.priv [("k", "d")] ∧
    metaGet (metaFold true docK.metadata
        ([{ text_chunk := "t", metadata := some [("k", "d")], num_char_overlap := none }].take
          (0 + 1))) "k" =
      some "d" := by
  have h := C2_merge_directions docK
      (fun _ => [Chunk.split { text_chunk := "t", metadata := some [("k", "s")] }]) false
      [{ text_chunk := "t", metadata := some [("k", "d")], num_char_overlap := none }]
      rfl (by decide) (by decide)
  have hchunks : ∀ (j : Nat) (c : Chunk),
      ((fun _ : String => [Chunk.split { text_chunk := "t", metadata := some [("k", "s")] }])
        (BaseNode.document docK).get_content)[j]? = some c →
      (metaKeys ((normalizeChunk c).metadata.getD [])).Nodup := by
    intro j c hc
    match j, hc with
    | 0, hc =>
      cases hc
      decide
    | n + 1, hc => simp at hc
  refine ⟨(h.2.1.1).trans rfl, ?_, h.2.2 hchunks 0
    { text_chunk := "t", metadata := some [("k", "d")], num_char_overlap := none } rfl
    "k" "d" rfl⟩
  obtain ⟨nd, hnd, hm⟩ := h.2.1.2 0
      { text_chunk := "t", metadata := some [("k", "d")], num_char_overlap := none } rfl
  have hg : (resultNodes (get_nodes_from_document (.document docK)
      (.plain fun _ => [Chunk.split { text_chunk := "t", metadata := some [("k", "s")] }])
      true false)).getD 0 dummyNode = nd := by
    rw [List.getD_eq_getElem?_getD, hnd]
    rfl
  rw [hg, hm]
  rfl

end LlamaIndex
